import Mathlib

/-!
Verification of the runtime-debugging log server
(`src/scripts/debug-server.cjs`) against its specification.

The server stores JSON log records in an append-only newline-delimited
file and serves query / statistics / timeline endpoints.  We embed the
JavaScript data model shallowly:

* JSON values are `JVal`; a JS object is a list of key/value pairs where
  a later binding of the same key overrides an earlier one (this is the
  semantics of JS object literals and of the spread operator, and of
  `JSON.parse` on duplicate keys).
* JS truthiness is `truthy`.
* Machine-level concerns (HTTP framing, `Date.now()`, console output)
  are parameters or are omitted; per-line `JSON.parse` outcomes of the
  persisted file are modelled as `Option LogRec` since the parser itself
  is the platform's.
* Client-supplied `timestamp` values are interpreted as integers
  (millisecond epoch times, per the data model); the numeric comparison
  and subtraction helpers are defined only on numbers.
-/

/-- A JSON value (the payloads the server receives are parsed JSON). -/
inductive JVal where
  | null
  | bool (b : Bool)
  | num (n : Int)
  | str (s : String)
  | arr (elems : List JVal)
  | obj (fields : List (String × JVal))

/-- A stored log record: a JS object, i.e. key/value pairs where the last
binding of a key wins (JS object-literal semantics). -/
def LogRec : Type := List (String × JVal)

/-- Property lookup on a JS object: the last binding of the key wins,
`none` models JS `undefined`. -/
def getField (r : LogRec) (k : String) : Option JVal :=
  r.foldl (fun acc p => if p.1 == k then some p.2 else acc) none

/-- JS truthiness of a JSON value: `null`, `false`, `0` and `""` are
falsy; every array and object is truthy. -/
def truthy : JVal → Bool
  | .null => false
  | .bool b => b
  | .num n => n != 0
  | .str s => s != ""
  | .arr _ => true
  | .obj _ => true

/-- JS `v || default` on an optional property (`undefined` and falsy
values fall through to the default). -/
def jsOr (v : Option JVal) (d : JVal) : JVal :=
  match v with
  | some w => if truthy w then w else d
  | none => d

/-- The effective level of a record, `e.level || 'info'`. -/
def levelOf (r : LogRec) : JVal :=
  jsOr (getField r "level") (.str "info")

/-- JS `<` on the numeric values the server compares (timestamps);
defined only on numbers, `false` elsewhere (non-numeric timestamps are
outside the model). -/
def jsLt : JVal → JVal → Bool
  | .num a, .num b => a < b
  | _, _ => false

/-- JS `>` on numbers, as `jsLt`. -/
def jsGt : JVal → JVal → Bool
  | .num a, .num b => a > b
  | _, _ => false

/-- JS numeric subtraction on the values the server subtracts
(timestamps); `0` on non-numbers (outside the model). -/
def jsSubNum : JVal → JVal → Int
  | .num a, .num b => a - b
  | _, _ => 0

/-- JS `x || 0` coerced to a number, as used by the timeline sort key
(`a.timestamp || 0`); non-numeric truthy values are outside the model. -/
def jsNumOr0 : Option JVal → Int
  | some (.num n) => n
  | _ => 0

/-- The fields contributed by a spread `...data` in an object literal:
an object's own fields; spreading an array yields its index properties,
spreading a string its character index properties, and spreading
`null` / a boolean / a number contributes nothing. -/
def spreadFields : JVal → List (String × JVal)
  | .obj fs => fs
  | .arr xs => (xs.enum.map fun p => (toString p.1, p.2))
  | .str s => (s.data.enum.map fun p => (toString p.1, .str (String.mk [p.2])))
  | _ => []

/-- Property access `data.k` on a parsed JSON value: only objects have
(non-index) named properties. -/
def jsGet (v : JVal) (k : String) : Option JVal :=
  match v with
  | .obj fs => getField fs k
  | _ => none

-- ---------------------------------------------------------------------
-- Character-level string helpers (JS `String.prototype.includes`,
-- `toLowerCase`, `split(',')`), written on `List Char` so that they
-- evaluate inside the kernel.
-- ---------------------------------------------------------------------

/-- Does `hay` start with `needle`? -/
def startsWithC : List Char → List Char → Bool
  | _, [] => true
  | [], _ :: _ => false
  | h :: hs, n :: ns => h == n && startsWithC hs ns

/-- Does `hay` contain `needle` as a contiguous run?  (JS `includes`;
the empty needle is contained everywhere.) -/
def containsC (needle : List Char) : List Char → Bool
  | [] => startsWithC [] needle
  | h :: hs => startsWithC (h :: hs) needle || containsC needle hs

/-- JS `hay.includes(needle)`. -/
def strIncludes (hay needle : String) : Bool :=
  containsC needle.data hay.data

/-- ASCII lower-casing of a string's characters (JS `toLowerCase` on the
ASCII data the server handles). -/
def lowerC (l : List Char) : List Char :=
  l.map Char.toLower

/-- Case-insensitive JS `hay.toLowerCase().includes(needle.toLowerCase())`. -/
def strIncludesCI (hay needle : String) : Bool :=
  containsC (lowerC needle.data) (lowerC hay.data)

/-- JS `s.split(',')` on character lists: `""` yields `[""]`,
a trailing separator yields a trailing empty group. -/
def splitCommaC : List Char → List (List Char)
  | [] => [[]]
  | c :: rest =>
      if c == ',' then [] :: splitCommaC rest
      else
        match splitCommaC rest with
        | [] => [[c]]
        | g :: gs => (c :: g) :: gs

/-- JS `query.level.split(',')`. -/
def splitComma (s : String) : List String :=
  (splitCommaC s.data).map String.mk

-- ---------------------------------------------------------------------
-- Ingestion (`processLogEntry`, single and batch handlers)
-- ---------------------------------------------------------------------

/-- Server state: the in-memory `logCounter` and the persisted log file.
The file is a list of lines; each line is modelled by the outcome of
`JSON.parse` on it (`none` for a line that does not parse to a truthy
record).  Lines appended by the server always carry their record. -/
structure ServerState where
  counter : Nat
  store : List (Option LogRec)

/-- The state after start-up (the log file is truncated on start) or
after `DELETE /logs`. -/
def initState : ServerState := ⟨0, []⟩

/-- The object literal built by `processLogEntry`:
`{ _seq: counter, _receivedAt: now, ...data, level: data.level || 'info' }`.
Later bindings override earlier ones under `getField`. -/
def mkLogEntry (c : Nat) (now : Int) (data : JVal) : LogRec :=
  ("_seq", .num c) :: ("_receivedAt", .num now) :: spreadFields data
    ++ [("level", jsOr (jsGet data "level") (.str "info"))]

/-- Whether a JSON value is a string (the only values with
`.toUpperCase()` / `.split()`). -/
def isStr : JVal → Bool
  | .str _ => true
  | _ => false

/-- Whether the console-mirroring section of `processLogEntry` throws a
`TypeError` after the entry has been appended: line 158 calls
`.toUpperCase()` on `logEntry.level || 'info'`, which throws when the
payload's `level` is truthy but not a string (otherwise the value is a
string — `'info'` when `level` is absent or falsy); and line 176 calls
`.split('\n')` on `data.error.stack`, which throws when `error` is
truthy and its `stack` property is truthy but not a string.  These are
the only throw sites between the append and the return. -/
def consoleThrows (data : JVal) : Bool :=
  !isStr (jsOr (jsGet data "level") (.str "info"))
  || (match jsGet data "error" with
      | some err =>
          truthy err &&
          (match jsGet err "stack" with
           | some s => truthy s && !isStr s
           | none => false)
      | none => false)

/-- Model of `processLogEntry(data)`.  The counter is incremented first.
Building the entry object evaluates `data.level`, which throws a
`TypeError` when `data` is `null` — then the counter has been
incremented but nothing is appended, and the exception propagates to
the caller (`none` result).  For any other payload the entry is built
and appended; the console mirroring that follows the append can itself
throw a `TypeError` (see `consoleThrows`), in which case the entry is
already stored and the counter already incremented, but the exception
still propagates to the caller (`none` result). -/
def processLogEntry (now : Int) (st : ServerState) (data : JVal) :
    ServerState × Option LogRec :=
  let c := st.counter + 1
  match data with
  | .null => ({ st with counter := c }, none)
  | d =>
      let entry := mkLogEntry c now d
      (⟨c, st.store ++ [some entry]⟩,
       if consoleThrows d then none else some entry)

/-- The single-ingestion handler `POST /ingest/<id>`: the body either
parses (`some data`) or `JSON.parse` throws (`none` → 400 before
`processLogEntry` runs).  A `TypeError` escaping `processLogEntry` is
caught by the same `try` and also yields 400. -/
def ingestSingle (now : Int) (st : ServerState) (body : Option JVal) :
    ServerState × Nat :=
  match body with
  | none => (st, 400)
  | some data =>
      match processLogEntry now st data with
      | (st', some _) => (st', 200)
      | (st', none) => (st', 400)

/-- The map `data.entries.map(entry => processLogEntry(entry))`, which runs left
to right and aborts at the first entry whose processing throws.  Returns
the state reached and `some n` (entries processed) on success, `none`
when the map threw part-way. -/
def processEntries (now : Int) (st : ServerState) :
    List JVal → ServerState × Option Nat
  | [] => (st, some 0)
  | e :: rest =>
      match processLogEntry now st e with
      | (st1, none) => (st1, none)
      | (st1, some _) =>
          match processEntries now st1 rest with
          | (st2, some n) => (st2, some (n + 1))
          | (st2, none) => (st2, none)

/-- Batch response: HTTP status and, on success, the `processed` count. -/
structure BatchResp where
  status : Nat
  processed : Option Nat

/-- The batch handler `POST /ingest/<id>/batch`: the body must parse and
its `entries` property must be an array, else 400; then each entry is
processed in order, and an exception thrown by an entry aborts the rest
of the map and yields 400 (state changes made so far are kept — file
appends and counter increments are not rolled back). -/
def ingestBatch (now : Int) (st : ServerState) (body : Option JVal) :
    ServerState × BatchResp :=
  match body with
  | none => (st, ⟨400, none⟩)
  | some data =>
      match jsGet data "entries" with
      | some (.arr es) =>
          match processEntries now st es with
          | (st', some n) => (st', ⟨200, some n⟩)
          | (st', none) => (st', ⟨400, none⟩)
      | _ => (st, ⟨400, none⟩)

/-- A run of single ingestions: each element is `(now, payload)`. -/
def ingestRun (st : ServerState) (ds : List (Int × JVal)) : ServerState :=
  ds.foldl (fun s d => (processLogEntry d.1 s d.2).1) st

-- ---------------------------------------------------------------------
-- Reading the store (`readLogEntries`)
-- ---------------------------------------------------------------------

/-- Model of `readLogEntries()`: every line is `JSON.parse`d (a throwing line
becomes `null`) and falsy results are dropped by `.filter(Boolean)`.
A line is modelled by its parse outcome, so reading is `filterMap id`. -/
def readLogEntries (lines : List (Option LogRec)) : List LogRec :=
  lines.filterMap id

-- ---------------------------------------------------------------------
-- Query engine (`GET /logs`)
-- ---------------------------------------------------------------------

/-- The query parameters the `/logs` handler interprets.  A `none` field
models an absent (or empty, hence falsy) query parameter.  `limit` and
`tail` model a parameter supplied with a nonnegative integer value
(`parseInt` of its digits). -/
structure Query where
  hypothesis : Option String := none
  level : Option String := none
  location : Option String := none
  search : Option String := none
  limit : Option Nat := none
  tail : Option Nat := none

/-- Strict equality `e.hypothesisId === query.hypothesis` against the
query string. -/
def matchHypothesis (q : String) (e : LogRec) : Bool :=
  match getField e "hypothesisId" with
  | some (.str s) => s == q
  | _ => false

/-- Membership `levels.includes(e.level || 'info')` where
`levels = query.level.split(',')` — strict-equality membership of the
effective level in the allow-list. -/
def matchLevel (q : String) (e : LogRec) : Bool :=
  match levelOf e with
  | .str s => (splitComma q).contains s
  | _ => false

/-- Substring test `e.location && e.location.includes(query.location)`
(a non-string `location` never matches). -/
def matchLocation (q : String) (e : LogRec) : Bool :=
  match getField e "location" with
  | some (.str s) => truthy (.str s) && strIncludes s q
  | _ => false

/-- Case-insensitive search over `message` OR `location`. -/
def matchSearch (q : String) (e : LogRec) : Bool :=
  (match getField e "message" with
   | some (.str s) => truthy (.str s) && strIncludesCI s q
   | _ => false) ||
  (match getField e "location" with
   | some (.str s) => truthy (.str s) && strIncludesCI s q
   | _ => false)

/-- Apply one optional filter. -/
def applyOpt (f : String → LogRec → Bool) (q : Option String)
    (es : List LogRec) : List LogRec :=
  match q with
  | some s => es.filter (f s)
  | none => es

/-- The four record filters of the `/logs` handler, in evaluation order
(they commute, but we keep the source's order). -/
def applyFilters (q : Query) (es : List LogRec) : List LogRec :=
  applyOpt matchSearch q.search
    (applyOpt matchLocation q.location
      (applyOpt matchLevel q.level
        (applyOpt matchHypothesis q.hypothesis es)))

/-- JS `filtered.slice(-n)`: for `n = 0`, `slice(-0)` is `slice(0)` and
returns the whole array; for `n > 0` it returns the last
`min n (length)` elements. -/
def sliceLast (xs : List LogRec) (n : Nat) : List LogRec :=
  if n = 0 then xs else xs.drop (xs.length - n)

/-- The `GET /logs` handler on the already-read entries: filters, then
`limit` truncation, then `tail` truncation. -/
def getLogs (q : Query) (es : List LogRec) : List LogRec :=
  let filtered := applyFilters q es
  let filtered :=
    match q.limit with
    | some n => sliceLast filtered n
    | none => filtered
  match q.tail with
  | some n => sliceLast filtered n
  | none => filtered

/-- The empty query (no parameters supplied). -/
def emptyQuery : Query := {}

-- ---------------------------------------------------------------------
-- Statistics (`GET /logs/stats`): the time-range part
-- ---------------------------------------------------------------------

/-- One step of the stats loop for the time range accumulator
`(earliest, latest)` (both start as `null`, modelled `none`):
```
if (e.timestamp) {
  if (!earliest || e.timestamp < earliest) earliest = e.timestamp;
  if (!latest || e.timestamp > latest) latest = e.timestamp;
}
```  -/
def timeRangeStep (acc : Option JVal × Option JVal) (e : LogRec) :
    Option JVal × Option JVal :=
  match getField e "timestamp" with
  | some t =>
      if truthy t then
        (match acc.1 with
         | none => some t
         | some c => if !truthy c || jsLt t c then some t else some c,
         match acc.2 with
         | none => some t
         | some c => if !truthy c || jsGt t c then some t else some c)
      else acc
  | none => acc

/-- The `timeRange` accumulator after the stats loop. -/
def timeRange (es : List LogRec) : Option JVal × Option JVal :=
  es.foldl timeRangeStep (none, none)

/-- The `timeRange.durationMs` field, set only when
`earliest && latest` (both non-null and truthy). -/
def durationMs (es : List LogRec) : Option Int :=
  match timeRange es with
  | (some a, some b) =>
      if truthy a && truthy b then some (jsSubNum b a) else none
  | _ => none

/-- Spec-side reading: the client-supplied timestamps present on
records, as integers. -/
def presentTimestamps (es : List LogRec) : List Int :=
  es.filterMap fun e =>
    match getField e "timestamp" with
    | some (.num n) => some n
    | _ => none

/-- The timestamps the code's truthiness test actually admits: present,
numeric and nonzero. -/
def truthyTimestamps (es : List LogRec) : List Int :=
  es.filterMap fun e =>
    match getField e "timestamp" with
    | some (.num n) => if n ≠ 0 then some n else none
    | _ => none

-- ---------------------------------------------------------------------
-- Timeline (`GET /logs/timeline`)
-- ---------------------------------------------------------------------

/-- The sort key `(a.timestamp || 0)` of the timeline comparator. -/
def tsKey (e : LogRec) : Int :=
  jsNumOr0 (getField e "timestamp")

/-- The order induced by the comparator
`(a,b) => (a.timestamp||0) - (b.timestamp||0)`. -/
def tsLeP (a b : LogRec) : Prop :=
  tsKey a ≤ tsKey b

instance : DecidableRel tsLeP :=
  fun a b => inferInstanceAs (Decidable (tsKey a ≤ tsKey b))

instance : IsTotal LogRec tsLeP :=
  ⟨fun a b => Int.le_total (tsKey a) (tsKey b)⟩

instance : IsTrans LogRec tsLeP :=
  ⟨fun _ _ _ h1 h2 => le_trans h1 h2⟩

/-- The sorted (filtered) records of the timeline handler.
`Array.prototype.sort` with a consistent comparator is a stable sort
(required since ES2019, and V8 complies), and the stable sort by a key
is unique, so we model it with stable insertion sort. -/
def sortTs (es : List LogRec) : List LogRec :=
  List.insertionSort tsLeP es

/-- One row of the timeline response. -/
structure TimelineItem where
  seq : Option JVal
  timestamp : Option JVal
  elapsed : Int
  hypothesis : JVal
  level : JVal
  location : Option JVal
  message : Option JVal
  hasData : Bool
  hasError : Bool

/-- Whether a `data` payload is present and nonempty:
`Object.keys(v).length > 0` guarded by `v &&`. -/
def hasDataVal : Option JVal → Bool
  | some (.obj fs) => !fs.isEmpty
  | some (.arr xs) => !xs.isEmpty
  | some (.str s) => s != ""
  | _ => false

/-- Build one timeline row from its record and the record preceding it
in sorted order:
`elapsed = i > 0 && arr[i-1].timestamp && e.timestamp ? e.timestamp - arr[i-1].timestamp : 0`. -/
def mkItem (prev : Option LogRec) (e : LogRec) : TimelineItem where
  seq := getField e "_seq"
  timestamp := getField e "timestamp"
  elapsed :=
    match prev with
    | none => 0
    | some p =>
        match getField p "timestamp", getField e "timestamp" with
        | some tp, some te =>
            if truthy tp && truthy te then jsSubNum te tp else 0
        | _, _ => 0
  hypothesis := jsOr (getField e "hypothesisId") (.str "-")
  level := levelOf e
  location := getField e "location"
  message := getField e "message"
  hasData := hasDataVal (getField e "data")
  hasError :=
    match getField e "error" with
    | some v => truthy v
    | none => false

/-- Map the sorted records to timeline rows, each row seeing its
predecessor. -/
def timelineRows : Option LogRec → List LogRec → List TimelineItem
  | _, [] => []
  | prev, e :: rest => mkItem prev e :: timelineRows (some e) rest

/-- The `GET /logs/timeline` handler on the already-read entries:
optional hypothesis filter, stable sort by `timestamp || 0`, rows with
elapsed deltas. -/
def timelineOf (hyp : Option String) (es : List LogRec) : List TimelineItem :=
  timelineRows none (sortTs (applyOpt matchHypothesis hyp es))

-- ---------------------------------------------------------------------
-- Structural lemmas about object lookup and the stored-entry shape
-- ---------------------------------------------------------------------

/-- Folding the lookup step from any accumulator factors through the
lookup from `none`. -/
lemma foldGet_acc (k : String) (ys : List (String × JVal)) (acc : Option JVal) :
    ys.foldl (fun a p => if p.1 == k then some p.2 else a) acc
      = (getField ys k).or acc := by
  induction ys generalizing acc with
  | nil => simp [getField]
  | cons p ys ih =>
      simp only [getField, List.foldl_cons] at *
      rw [ih, ih (if p.1 == k then some p.2 else none), Option.or_assoc]
      by_cases h : p.1 == k <;> simp [h]

/-- Last-binding-wins lookup over concatenation: the right part wins. -/
lemma getField_append (xs ys : List (String × JVal)) (k : String) :
    getField (xs ++ ys) k = (getField ys k).or (getField xs k) := by
  simp only [getField, List.foldl_append]
  exact foldGet_acc k ys _

/-- Last-binding-wins lookup through a head binding. -/
lemma getField_cons (p : String × JVal) (ys : List (String × JVal)) (k : String) :
    getField (p :: ys) k
      = (getField ys k).or (if p.1 == k then some p.2 else none) := by
  simp only [getField, List.foldl_cons]
  exact foldGet_acc k ys _

/-- Lookup in the empty object. -/
lemma getField_nil (k : String) : getField ([] : List (String × JVal)) k = none := rfl

/-- Lookup in a one-binding object. -/
lemma getField_singleton (p : String × JVal) (k : String) :
    getField [p] k = if p.1 == k then some p.2 else none := by
  simp [getField]

/-- The stored entry's `level` is always the re-applied
`data.level || 'info'` (the trailing binding wins over any spread one). -/
lemma mkLogEntry_level (c : Nat) (now : Int) (d : JVal) :
    getField (mkLogEntry c now d) "level"
      = jsOr (jsGet d "level") (.str "info") := by
  simp [mkLogEntry, getField_cons, getField_append, getField_singleton, getField_nil]

/-- Any payload field other than `level` survives into the stored entry
(the spread comes after the server-assigned fields and only `level` is
re-applied afterwards). -/
lemma mkLogEntry_preserve (c : Nat) (now : Int) (d : JVal) (k : String)
    (hk : k ≠ "level") (v : JVal) (hv : getField (spreadFields d) k = some v) :
    getField (mkLogEntry c now d) k = some v := by
  have : ("level" == k) = false := by
    simp only [beq_eq_false_iff_ne, ne_eq]
    exact fun h => hk h.symm
  simp [mkLogEntry, getField_cons, getField_append, getField_singleton, getField_nil, this, hv]

/-- When the payload spreads no `_seq` binding, the stored entry's
`_seq` is the freshly assigned counter value. -/
lemma mkLogEntry_seq (c : Nat) (now : Int) (d : JVal)
    (h : getField (spreadFields d) "_seq" = none) :
    getField (mkLogEntry c now d) "_seq" = some (.num c) := by
  simp [mkLogEntry, getField_cons, getField_append, getField_singleton, getField_nil, h]

/-- State evaluation of `processLogEntry` on any non-`null` payload:
the entry is appended and the counter incremented whether or not the
console mirroring afterwards throws. -/
lemma processLogEntry_state (now : Int) (st : ServerState) {d : JVal}
    (h : d ≠ .null) :
    (processLogEntry now st d).1
      = ⟨st.counter + 1,
         st.store ++ [some (mkLogEntry (st.counter + 1) now d)]⟩ := by
  cases d with
  | null => exact absurd rfl h
  | _ => rfl

/-- Full evaluation of `processLogEntry` on a non-`null` payload whose
console mirroring does not throw. -/
lemma processLogEntry_ok (now : Int) (st : ServerState) {d : JVal}
    (h : d ≠ .null) (hc : consoleThrows d = false) :
    processLogEntry now st d
      = (⟨st.counter + 1, st.store ++ [some (mkLogEntry (st.counter + 1) now d)]⟩,
         some (mkLogEntry (st.counter + 1) now d)) := by
  cases d with
  | null => exact absurd rfl h
  | bool b => simp [processLogEntry, hc]
  | num n => simp [processLogEntry, hc]
  | str s => simp [processLogEntry, hc]
  | arr xs => simp [processLogEntry, hc]
  | obj fs => simp [processLogEntry, hc]

/-- Full evaluation of `processLogEntry` on a non-`null` payload whose
console mirroring throws: the entry is stored, the counter incremented,
and the exception propagates. -/
lemma processLogEntry_throws (now : Int) (st : ServerState) {d : JVal}
    (h : d ≠ .null) (hc : consoleThrows d = true) :
    processLogEntry now st d
      = (⟨st.counter + 1, st.store ++ [some (mkLogEntry (st.counter + 1) now d)]⟩,
         none) := by
  cases d with
  | null => exact absurd rfl h
  | bool b => simp [processLogEntry, hc]
  | num n => simp [processLogEntry, hc]
  | str s => simp [processLogEntry, hc]
  | arr xs => simp [processLogEntry, hc]
  | obj fs => simp [processLogEntry, hc]

/-- The counter is incremented by every `processLogEntry` call, whether
or not the entry is stored. -/
lemma processLogEntry_counter (now : Int) (st : ServerState) (d : JVal) :
    (processLogEntry now st d).1.counter = st.counter + 1 := by
  cases d <;> rfl

/-- Reading a store of well-formed lines yields exactly its records. -/
lemma readLogEntries_map_some (rs : List LogRec) :
    readLogEntries (rs.map some) = rs := by
  simp [readLogEntries]

/-- Reading distributes over concatenation of the store. -/
lemma readLogEntries_append (a b : List (Option LogRec)) :
    readLogEntries (a ++ b) = readLogEntries a ++ readLogEntries b := by
  simp [readLogEntries]

/-- The unfiltered query returns the entries unchanged. -/
lemma getLogs_empty (es : List LogRec) : getLogs emptyQuery es = es := rfl

-- ---------------------------------------------------------------------
-- C7: unparsable single-ingestion body
-- ---------------------------------------------------------------------

/-- C7: for every single-record ingestion request whose body is not
parsable as JSON, the response is a 400-class error and the state (store
and sequence counter) is unchanged — `JSON.parse` throws before
`processLogEntry` runs, so `logCounter` is never touched. -/
theorem C7_unparsable_body_rejected_without_increment
    (now : Int) (st : ServerState) :
    ingestSingle now st none = (st, 400) := rfl

-- ---------------------------------------------------------------------
-- C8: corrupt persisted lines are skipped
-- ---------------------------------------------------------------------

/-- C8: reading the store skips every line that fails to parse and
returns all remaining parsable records in order: a corrupt line in the
middle contributes nothing and never blocks the lines after it, and a
fully well-formed store is returned verbatim.  `readLogEntries` is a
total function — no error can surface to the caller. -/
theorem C8_corrupt_lines_never_block_read
    (pre post : List (Option LogRec)) (rs : List LogRec) :
    readLogEntries (pre ++ none :: post)
      = readLogEntries pre ++ readLogEntries post
    ∧ readLogEntries (rs.map some) = rs := by
  constructor
  · simp [readLogEntries]
  · exact readLogEntries_map_some rs

-- ---------------------------------------------------------------------
-- C10: caller-supplied `_seq` / `_receivedAt` override the assigned ones
-- ---------------------------------------------------------------------

/-- C10: when the ingested payload itself contains `_seq` or
`_receivedAt`, the stored record carries the payload's value for that
field rather than the server-assigned one, because the `...data` spread
comes after the server-assigned bindings and only `level` is re-applied
after the spread.  The first conjunct pins down the stored record: the
payload is appended as `mkLogEntry` whatever the payload (even when the
console mirroring afterwards throws). -/
theorem C10_payload_overrides_assigned_fields
    (now : Int) (st : ServerState) (fs : List (String × JVal)) (v w : JVal)
    (hs : getField fs "_seq" = some v)
    (hr : getField fs "_receivedAt" = some w) :
    (processLogEntry now st (.obj fs)).1
        = ⟨st.counter + 1,
           st.store ++ [some (mkLogEntry (st.counter + 1) now (.obj fs))]⟩
    ∧ getField (mkLogEntry (st.counter + 1) now (.obj fs)) "_seq" = some v
    ∧ getField (mkLogEntry (st.counter + 1) now (.obj fs)) "_receivedAt" = some w
    ∧ getField (mkLogEntry (st.counter + 1) now (.obj fs)) "level"
        = jsOr (getField fs "level") (.str "info") := by
  refine ⟨rfl, ?_, ?_, ?_⟩
  · exact mkLogEntry_preserve _ _ _ _ (by decide) v hs
  · exact mkLogEntry_preserve _ _ _ _ (by decide) w hr
  · exact mkLogEntry_level _ _ _

/-- Witness for C10 at a concrete payload carrying its own `_seq = 999`
and `_receivedAt = 5` while the server would assign `_seq = 1`. -/
theorem C10_witness :
    (processLogEntry 7 initState
        (.obj [("_seq", JVal.num 999), ("_receivedAt", JVal.num 5)])).1
      = ⟨1, [some (mkLogEntry 1 7
          (.obj [("_seq", JVal.num 999), ("_receivedAt", JVal.num 5)]))]⟩
    ∧ getField (mkLogEntry 1 7 (.obj [("_seq", JVal.num 999), ("_receivedAt", JVal.num 5)]))
        "_seq" = some (JVal.num 999)
    ∧ getField (mkLogEntry 1 7 (.obj [("_seq", JVal.num 999), ("_receivedAt", JVal.num 5)]))
        "_receivedAt" = some (JVal.num 5)
    ∧ getField (mkLogEntry 1 7 (.obj [("_seq", JVal.num 999), ("_receivedAt", JVal.num 5)]))
        "level"
        = jsOr (getField [("_seq", JVal.num 999), ("_receivedAt", JVal.num 5)] "level")
            (.str "info") :=
  C10_payload_overrides_assigned_fields 7 initState
    [("_seq", JVal.num 999), ("_receivedAt", JVal.num 5)]
    (JVal.num 999) (JVal.num 5) rfl rfl

-- ---------------------------------------------------------------------
-- C3: field round-trip through ingestion and an unfiltered query
-- ---------------------------------------------------------------------

/-- C3 counterexample: the claim says every payload field other than the
server-assigned `_seq`/`_receivedAt` — explicitly including `level` — is
returned unchanged by a subsequent unfiltered `/logs` query.  A payload
with a present-but-falsy `level` (here `level: null`) is returned with
`level` replaced by `"info"` (`level: data.level || 'info'`), so the
claim fails at this input. -/
theorem C3_counterexample :
    getLogs emptyQuery
        (readLogEntries
          (processLogEntry 0 initState
            (JVal.obj [("level", JVal.null), ("message", JVal.str "x")])).1.store)
      = [[("_seq", JVal.num 1), ("_receivedAt", JVal.num 0),
          ("level", JVal.null), ("message", JVal.str "x"),
          ("level", JVal.str "info")]]
    ∧ getField [("_seq", JVal.num 1), ("_receivedAt", JVal.num 0),
          ("level", JVal.null), ("message", JVal.str "x"),
          ("level", JVal.str "info")] "level" = some (JVal.str "info")
    ∧ getField [("level", JVal.null), ("message", JVal.str "x")] "level"
        = some JVal.null
    ∧ some (JVal.str "info") ≠ some JVal.null := by
  refine ⟨rfl, rfl, rfl, ?_⟩
  simp

/-- C3 amended: ingesting an object payload appends exactly one record
(the append precedes every later throw site, so this holds for every
object payload), a subsequent unfiltered `/logs` query returns it, and
every payload field other than `level` keeps its value in the returned
record (this includes caller-supplied `_seq`/`_receivedAt`); `level`
itself is returned as `data.level || 'info'`, i.e. unchanged exactly
when the payload's `level` is truthy and `"info"` otherwise. -/
theorem C3_amended_roundtrip
    (now : Int) (st : ServerState) (fs : List (String × JVal)) :
    (processLogEntry now st (.obj fs)).1
      = ⟨st.counter + 1,
         st.store ++ [some (mkLogEntry (st.counter + 1) now (.obj fs))]⟩
    ∧ getLogs emptyQuery
        (readLogEntries
          (st.store ++ [some (mkLogEntry (st.counter + 1) now (.obj fs))]))
        = readLogEntries st.store ++ [mkLogEntry (st.counter + 1) now (.obj fs)]
    ∧ (∀ k v, k ≠ "level" → getField fs k = some v
        → getField (mkLogEntry (st.counter + 1) now (.obj fs)) k = some v)
    ∧ getField (mkLogEntry (st.counter + 1) now (.obj fs)) "level"
        = jsOr (getField fs "level") (.str "info") := by
  refine ⟨rfl, ?_, ?_, mkLogEntry_level _ _ _⟩
  · rw [getLogs_empty, readLogEntries_append]
    simp [readLogEntries]
  · intro k v hk hv
    exact mkLogEntry_preserve _ _ _ k hk v hv

/-- Witness for C3 (amended) at a concrete payload: the `message` field
round-trips unchanged. -/
theorem C3_amended_witness :
    getField (mkLogEntry 1 0 (.obj [("message", JVal.str "m")])) "message"
      = some (JVal.str "m") :=
  (C3_amended_roundtrip 0 initState [("message", JVal.str "m")]).2.2.1
    "message" (JVal.str "m") (by decide) rfl

-- ---------------------------------------------------------------------
-- C4: `limit=N` truncation
-- ---------------------------------------------------------------------

/-- C4 counterexample: the claim says `limit=N` returns at most `N`
records for every nonnegative `N`.  For `N = 0` the handler computes
`filtered.slice(-0)`, which is `slice(0)` — the entire filtered set —
so a one-record store yields one record, not at most zero. -/
theorem C4_counterexample :
    getLogs { limit := some 0 } [[("message", JVal.str "a")]]
      = [[("message", JVal.str "a")]]
    ∧ ¬ (getLogs { limit := some 0 } [[("message", JVal.str "a")]]).length ≤ 0 :=
  ⟨rfl, by decide⟩

/-- C4 amended: for every positive `N` supplied as `limit=N` (and no
`tail`), the query returns exactly the last `N` elements of the filtered
set in original order — at most `N` records; for `N = 0` the whole
filtered set is returned (JS `slice(-0)` = `slice(0)`). -/
theorem C4_amended_limit
    (q : Query) (es : List LogRec) (N : Nat)
    (hl : q.limit = some N) (ht : q.tail = none) :
    (0 < N →
      getLogs q es
          = (applyFilters q es).drop ((applyFilters q es).length - N)
        ∧ (getLogs q es).length ≤ N)
    ∧ (N = 0 → getLogs q es = applyFilters q es) := by
  have hg : getLogs q es = sliceLast (applyFilters q es) N := by
    simp [getLogs, hl, ht]
  constructor
  · intro hN
    have h0 : ¬ N = 0 := by omega
    rw [hg, sliceLast, if_neg h0]
    refine ⟨rfl, ?_⟩
    rw [List.length_drop]
    omega
  · intro h0
    rw [hg, sliceLast, if_pos h0]

/-- Witness for C4 (amended) with `limit=1` on a two-record store: the
single most-recently-appended record is returned. -/
theorem C4_amended_witness :
    getLogs { limit := some 1 }
        [[("message", JVal.str "a")], [("message", JVal.str "b")]]
      = (applyFilters { limit := some 1 }
          [[("message", JVal.str "a")], [("message", JVal.str "b")]]).drop
          ((applyFilters { limit := some 1 }
            [[("message", JVal.str "a")], [("message", JVal.str "b")]]).length - 1)
    ∧ (getLogs { limit := some 1 }
        [[("message", JVal.str "a")], [("message", JVal.str "b")]]).length ≤ 1 :=
  (C4_amended_limit { limit := some 1 }
    [[("message", JVal.str "a")], [("message", JVal.str "b")]] 1 rfl rfl).1
    (by decide)

-- ---------------------------------------------------------------------
-- C9: the level allow-list filter is monotone
-- ---------------------------------------------------------------------

/-- C9: for every store content, every record returned by
`/logs?level=error` is also returned by `/logs?level=error,warn` — the
level filter keeps a record exactly when its effective level (defaulted
to `info`) appears in the comma-separated allow-list, and the second
list contains the first. -/
theorem C9_level_allowlist_monotone
    (lines : List (Option LogRec)) (e : LogRec)
    (h : e ∈ getLogs { level := some "error" } (readLogEntries lines)) :
    e ∈ getLogs { level := some "error,warn" } (readLogEntries lines) := by
  have hq : ∀ (s : String) (es : List LogRec),
      getLogs { level := some s } es = es.filter (matchLevel s) :=
    fun s es => rfl
  rw [hq] at h
  rw [hq, List.mem_filter]
  rw [List.mem_filter] at h
  refine ⟨h.1, ?_⟩
  have h2 := h.2
  unfold matchLevel at h2 ⊢
  cases hlv : levelOf e with
  | str s =>
      rw [hlv] at h2
      have hs : s = "error" := by
        rw [show splitComma "error" = ["error"] from rfl] at h2
        simpa using h2
      rw [hs]
      decide
  | null => rw [hlv] at h2; cases h2
  | bool b => rw [hlv] at h2; cases h2
  | num n => rw [hlv] at h2; cases h2
  | arr xs => rw [hlv] at h2; cases h2
  | obj fs => rw [hlv] at h2; cases h2

/-- Witness for C9: a concrete `error`-level record returned by the
single-level query is also returned by the two-level query. -/
theorem C9_witness :
    [("level", JVal.str "error")] ∈
      getLogs { level := some "error,warn" }
        (readLogEntries [some [("level", JVal.str "error")]]) :=
  C9_level_allowlist_monotone [some [("level", JVal.str "error")]]
    [("level", JVal.str "error")]
    (by exact List.mem_singleton.mpr rfl)

-- ---------------------------------------------------------------------
-- C1: sequence numbers over a run of single ingestions
-- ---------------------------------------------------------------------

/-- Run lemma: splitting a run of single ingestions. -/
lemma ingestRun_append (st : ServerState) (xs ys : List (Int × JVal)) :
    ingestRun st (xs ++ ys) = ingestRun (ingestRun st xs) ys := by
  simp [ingestRun, List.foldl_append]

/-- Core run lemma: from any state, a run of single ingestions whose
payloads are non-`null` and spread no `_seq` binding of their own
appends exactly one record per payload, and the appended records carry
`_seq` values `counter+1, counter+2, …` in order. -/
lemma ingestRun_spec (ds : List (Int × JVal)) (st : ServerState)
    (h : ∀ d ∈ ds, d.2 ≠ JVal.null ∧ getField (spreadFields d.2) "_seq" = none) :
    (ingestRun st ds).counter = st.counter + ds.length
    ∧ ∃ news : List LogRec,
        (ingestRun st ds).store = st.store ++ news.map some
        ∧ news.map (fun e => getField e "_seq")
            = (List.range ds.length).map
                (fun i => some (JVal.num (Int.ofNat (st.counter + 1 + i)))) := by
  induction ds generalizing st with
  | nil =>
      refine ⟨rfl, [], ?_, ?_⟩ <;> simp [ingestRun]
  | cons d ds ih =>
      obtain ⟨hnn, hns⟩ := h d (List.mem_cons_self d ds)
      have hstep := processLogEntry_state d.1 st hnn
      have hrun : ingestRun st (d :: ds)
          = ingestRun (processLogEntry d.1 st d.2).1 ds := rfl
      rw [hrun, hstep]
      set e0 := mkLogEntry (st.counter + 1) d.1 d.2 with he0
      set st1 : ServerState := ⟨st.counter + 1, st.store ++ [some e0]⟩ with hst1
      obtain ⟨hc, news, hstore, hseq⟩ :=
        ih st1 (fun x hx => h x (List.mem_cons_of_mem d hx))
      refine ⟨?_, e0 :: news, ?_, ?_⟩
      · rw [hc]
        show st.counter + 1 + ds.length = st.counter + (ds.length + 1)
        omega
      · rw [hstore]
        simp [hst1]
      · have hhead : getField e0 "_seq"
            = some (JVal.num (Int.ofNat (st.counter + 1))) :=
          mkLogEntry_seq (st.counter + 1) d.1 d.2 hns
        rw [List.map_cons, hhead, hseq, List.length_cons,
          List.range_succ_eq_map, List.map_cons, List.map_map]
        congr 1
        refine List.map_congr_left fun i _ => ?_
        show some (JVal.num (Int.ofNat (st1.counter + 1 + i)))
          = some (JVal.num (Int.ofNat (st.counter + 1 + Nat.succ i)))
        have h1 : st1.counter + 1 + i = st.counter + 1 + Nat.succ i := by
          show st.counter + 1 + 1 + i = st.counter + 1 + Nat.succ i
          omega
        rw [h1]

/-- C1 counterexample: the claim says the stored `_seq` values of a run
of N ingested records are exactly `1..N`.  A single ingested record
whose payload carries its own `_seq: 999` is stored with `_seq = 999`
(the payload spread overrides the assigned field, cf. C10), so the
stored `_seq` values of this 1-record run are `[999]`, not `[1]`. -/
theorem C1_counterexample :
    (readLogEntries
        (ingestRun initState [(0, JVal.obj [("_seq", JVal.num 999)])]).store).map
        (fun e => getField e "_seq")
      = [some (JVal.num 999)]
    ∧ some (JVal.num 999) ≠ some (JVal.num 1) :=
  ⟨rfl, by simp⟩

/-- C1 amended: for every run of N single ingestions from a fresh (or
just-cleared) state whose payloads are non-`null` and do not carry a
`_seq` field of their own, the stored `_seq` values are exactly `1..N`
in ingestion order with no gaps or repeats, the final counter is `N`,
and the counter strictly increases with every ingestion (the strict
increase needs no hypothesis at all). -/
theorem C1_amended_sequence_numbers (ds : List (Int × JVal))
    (h : ∀ d ∈ ds, d.2 ≠ JVal.null ∧ getField (spreadFields d.2) "_seq" = none) :
    (readLogEntries (ingestRun initState ds).store).map
        (fun e => getField e "_seq")
      = (List.range ds.length).map (fun i => some (JVal.num (Int.ofNat (i + 1))))
    ∧ (ingestRun initState ds).counter = ds.length
    ∧ ∀ k, k < ds.length →
        (ingestRun initState (ds.take k)).counter
          < (ingestRun initState (ds.take (k + 1))).counter := by
  obtain ⟨hc, news, hstore, hseq⟩ := ingestRun_spec ds initState h
  refine ⟨?_, ?_, ?_⟩
  · rw [hstore]
    show (readLogEntries (([] : List (Option LogRec)) ++ news.map some)).map
        (fun e => getField e "_seq") = _
    rw [List.nil_append, readLogEntries_map_some, hseq]
    refine List.map_congr_left fun i _ => ?_
    show some (JVal.num (Int.ofNat (0 + 1 + i)))
      = some (JVal.num (Int.ofNat (i + 1)))
    have h1 : 0 + 1 + i = i + 1 := by omega
    rw [h1]
  · rw [hc]
    exact Nat.zero_add _
  · intro k hk
    have htake : ds.take (k + 1) = ds.take k ++ [ds[k]] := by
      rw [List.take_succ, List.getElem?_eq_getElem hk]
      rfl
    rw [htake, ingestRun_append]
    show _ < (processLogEntry (ds[k]).1 (ingestRun initState (ds.take k))
        (ds[k]).2).1.counter
    rw [processLogEntry_counter]
    omega

/-- Witness for C1 (amended) on a concrete 2-record run: the stored
`_seq` values are `[1, 2]` and the final counter is `2`. -/
theorem C1_amended_witness :
    (readLogEntries
        (ingestRun initState
          [(0, JVal.obj [("message", JVal.str "a")]),
           (3, JVal.obj [("hypothesisId", JVal.str "h1")])]).store).map
        (fun e => getField e "_seq")
      = [some (JVal.num 1), some (JVal.num 2)]
    ∧ (ingestRun initState
        [(0, JVal.obj [("message", JVal.str "a")]),
         (3, JVal.obj [("hypothesisId", JVal.str "h1")])]).counter = 2 := by
  have h := C1_amended_sequence_numbers
    [(0, JVal.obj [("message", JVal.str "a")]),
     (3, JVal.obj [("hypothesisId", JVal.str "h1")])]
    (by
      intro d hd
      rcases List.mem_cons.mp hd with h1 | h1
      · subst h1; exact ⟨by simp, rfl⟩
      · rcases List.mem_cons.mp h1 with h2 | h2
        · subst h2; exact ⟨by simp, rfl⟩
        · cases h2)
  refine ⟨?_, h.2.1⟩
  rw [h.1]
  rfl

-- ---------------------------------------------------------------------
-- C2: batch entries and a malformed entry
-- ---------------------------------------------------------------------

/-- Batch lemma, success case: when every entry is non-`null`, throws
nothing in its console mirroring, and spreads no `_seq` of its own, the
whole batch is processed in order, each entry appended with the next
counter value. -/
lemma processEntries_ok (now : Int) (st : ServerState) (es : List JVal)
    (h : ∀ e ∈ es, e ≠ JVal.null ∧ consoleThrows e = false
        ∧ getField (spreadFields e) "_seq" = none) :
    ∃ news : List LogRec,
      processEntries now st es
        = (⟨st.counter + es.length, st.store ++ news.map some⟩, some es.length)
      ∧ news.map (fun e => getField e "_seq")
          = (List.range es.length).map
              (fun i => some (JVal.num (Int.ofNat (st.counter + 1 + i)))) := by
  induction es generalizing st with
  | nil =>
      refine ⟨[], ?_, by simp⟩
      show (st, some 0) = _
      simp
  | cons e es ih =>
      obtain ⟨hnn, hcc, hns⟩ := h e (List.mem_cons_self e es)
      have hstep := processLogEntry_ok now st hnn hcc
      set e0 := mkLogEntry (st.counter + 1) now e with he0
      set st1 : ServerState := ⟨st.counter + 1, st.store ++ [some e0]⟩ with hst1
      obtain ⟨news, hrec, hseq⟩ :=
        ih st1 (fun x hx => h x (List.mem_cons_of_mem e hx))
      refine ⟨e0 :: news, ?_, ?_⟩
      · show (match processLogEntry now st e with
              | (st1, none) => (st1, none)
              | (st1, some _) =>
                  match processEntries now st1 es with
                  | (st2, some n) => (st2, some (n + 1))
                  | (st2, none) => (st2, none)) = _
        rw [hstep]
        show (match processEntries now st1 es with
              | (st2, some n) => (st2, some (n + 1))
              | (st2, none) => (st2, none)) = _
        rw [hrec]
        show ((⟨st1.counter + es.length, st1.store ++ news.map some⟩ : ServerState),
              some (es.length + 1))
          = (⟨st.counter + (e :: es).length,
              st.store ++ (e0 :: news).map some⟩,
             some (e :: es).length)
        have hcnt : st1.counter + es.length = st.counter + (e :: es).length := by
          show st.counter + 1 + es.length = st.counter + (es.length + 1)
          omega
        have hsto : st1.store ++ news.map some
            = st.store ++ (e0 :: news).map some := by
          show (st.store ++ [some e0]) ++ news.map some = _
          rw [List.append_assoc]
          rfl
        rw [hcnt, hsto]
        rfl
      · have hhead : getField e0 "_seq"
            = some (JVal.num (Int.ofNat (st.counter + 1))) :=
          mkLogEntry_seq (st.counter + 1) now e hns
        rw [List.map_cons, hhead, hseq, List.length_cons,
          List.range_succ_eq_map, List.map_cons, List.map_map]
        congr 1
        refine List.map_congr_left fun i _ => ?_
        show some (JVal.num (Int.ofNat (st1.counter + 1 + i)))
          = some (JVal.num (Int.ofNat (st.counter + 1 + Nat.succ i)))
        have h1 : st1.counter + 1 + i = st.counter + 1 + Nat.succ i := by
          show st.counter + 1 + 1 + i = st.counter + 1 + Nat.succ i
          omega
        rw [h1]

/-- Batch lemma, `null`-abort case: a `null` entry throws after its
counter increment but before anything is built or appended; the clean
entries before it stay appended, the entries after it are never
processed, and the map aborts with an exception (`none`). -/
lemma processEntries_abort_null (now : Int) (st : ServerState)
    (es₁ es₂ : List JVal)
    (h : ∀ e ∈ es₁, e ≠ JVal.null ∧ consoleThrows e = false
        ∧ getField (spreadFields e) "_seq" = none) :
    ∃ news : List LogRec,
      processEntries now st (es₁ ++ JVal.null :: es₂)
        = (⟨st.counter + es₁.length + 1, st.store ++ news.map some⟩, none)
      ∧ news.length = es₁.length := by
  induction es₁ generalizing st with
  | nil =>
      refine ⟨[], ?_, rfl⟩
      show (match processLogEntry now st JVal.null with
            | (st1, none) => (st1, none)
            | (st1, some _) =>
                match processEntries now st1 es₂ with
                | (st2, some n) => (st2, some (n + 1))
                | (st2, none) => (st2, none)) = _
      show ({ st with counter := st.counter + 1 }, (none : Option Nat)) = _
      simp
  | cons e es₁ ih =>
      obtain ⟨hnn, hcc, hns⟩ := h e (List.mem_cons_self e es₁)
      have hstep := processLogEntry_ok now st hnn hcc
      set e0 := mkLogEntry (st.counter + 1) now e with he0
      set st1 : ServerState := ⟨st.counter + 1, st.store ++ [some e0]⟩ with hst1
      obtain ⟨news, hrec, hlen⟩ :=
        ih st1 (fun x hx => h x (List.mem_cons_of_mem e hx))
      refine ⟨e0 :: news, ?_, by simp [hlen]⟩
      show (match processLogEntry now st e with
            | (st1, none) => (st1, none)
            | (st1, some _) =>
                match processEntries now st1 (es₁ ++ JVal.null :: es₂) with
                | (st2, some n) => (st2, some (n + 1))
                | (st2, none) => (st2, none)) = _
      rw [hstep]
      show (match processEntries now st1 (es₁ ++ JVal.null :: es₂) with
            | (st2, some n) => (st2, some (n + 1))
            | (st2, none) => (st2, none)) = _
      rw [hrec]
      show ((⟨st1.counter + es₁.length + 1,
              st1.store ++ news.map some⟩ : ServerState), (none : Option Nat))
        = (⟨st.counter + (e :: es₁).length + 1,
            st.store ++ (e0 :: news).map some⟩, none)
      have hcnt : st1.counter + es₁.length + 1
          = st.counter + (e :: es₁).length + 1 := by
        show st.counter + 1 + es₁.length + 1 = st.counter + (es₁.length + 1) + 1
        omega
      have hsto : st1.store ++ news.map some
          = st.store ++ (e0 :: news).map some := by
        show (st.store ++ [some e0]) ++ news.map some = _
        rw [List.append_assoc]
        rfl
      rw [hcnt, hsto]

/-- Batch lemma, console-throw abort case: a non-`null` entry whose
console mirroring throws (truthy non-string `level`, or truthy
non-string `error.stack`) is itself appended — the append precedes the
throw — and then aborts the map: the entries after it are never
processed. -/
lemma processEntries_abort_console (now : Int) (st : ServerState)
    (es₁ es₂ : List JVal) (eb : JVal)
    (h : ∀ e ∈ es₁, e ≠ JVal.null ∧ consoleThrows e = false
        ∧ getField (spreadFields e) "_seq" = none)
    (hb0 : eb ≠ JVal.null) (hbt : consoleThrows eb = true) :
    ∃ news : List LogRec,
      processEntries now st (es₁ ++ eb :: es₂)
        = (⟨st.counter + es₁.length + 1, st.store ++ news.map some⟩, none)
      ∧ news.length = es₁.length + 1 := by
  induction es₁ generalizing st with
  | nil =>
      refine ⟨[mkLogEntry (st.counter + 1) now eb], ?_, rfl⟩
      show (match processLogEntry now st eb with
            | (st1, none) => (st1, none)
            | (st1, some _) =>
                match processEntries now st1 es₂ with
                | (st2, some n) => (st2, some (n + 1))
                | (st2, none) => (st2, none)) = _
      rw [processLogEntry_throws now st hb0 hbt]
      rfl
  | cons e es₁ ih =>
      obtain ⟨hnn, hcc, hns⟩ := h e (List.mem_cons_self e es₁)
      have hstep := processLogEntry_ok now st hnn hcc
      set e0 := mkLogEntry (st.counter + 1) now e with he0
      set st1 : ServerState := ⟨st.counter + 1, st.store ++ [some e0]⟩ with hst1
      obtain ⟨news, hrec, hlen⟩ :=
        ih st1 (fun x hx => h x (List.mem_cons_of_mem e hx))
      refine ⟨e0 :: news, ?_, by simp [hlen]⟩
      show (match processLogEntry now st e with
            | (st1, none) => (st1, none)
            | (st1, some _) =>
                match processEntries now st1 (es₁ ++ eb :: es₂) with
                | (st2, some n) => (st2, some (n + 1))
                | (st2, none) => (st2, none)) = _
      rw [hstep]
      show (match processEntries now st1 (es₁ ++ eb :: es₂) with
            | (st2, some n) => (st2, some (n + 1))
            | (st2, none) => (st2, none)) = _
      rw [hrec]
      show ((⟨st1.counter + es₁.length + 1,
              st1.store ++ news.map some⟩ : ServerState), (none : Option Nat))
        = (⟨st.counter + (e :: es₁).length + 1,
            st.store ++ (e0 :: news).map some⟩, none)
      have hcnt : st1.counter + es₁.length + 1
          = st.counter + (e :: es₁).length + 1 := by
        show st.counter + 1 + es₁.length + 1 = st.counter + (es₁.length + 1) + 1
        omega
      have hsto : st1.store ++ news.map some
          = st.store ++ (e0 :: news).map some := by
        show (st.store ++ [some e0]) ++ news.map some = _
        rw [List.append_assoc]
        rfl
      rw [hcnt, hsto]

/-- C2 counterexample: a batch of three entries whose middle entry is
the JSON value `null`.  `processLogEntry(null)` increments the counter
and then throws a `TypeError` reading `data.level`; the exception aborts
`entries.map(...)`, so the third (well-formed) sibling is never
processed: only one record is stored, the response is 400, and the
counter ends at 2 — contradicting the claim that siblings of a
malformed entry are still appended. -/
theorem C2_counterexample :
    (ingestBatch 0 initState
        (some (.obj [("entries",
          .arr [.obj [("message", JVal.str "a")], .null,
                .obj [("message", JVal.str "b")]])]))).1.store.length = 1
    ∧ (ingestBatch 0 initState
        (some (.obj [("entries",
          .arr [.obj [("message", JVal.str "a")], .null,
                .obj [("message", JVal.str "b")]])]))).2.status = 400
    ∧ (ingestBatch 0 initState
        (some (.obj [("entries",
          .arr [.obj [("message", JVal.str "a")], .null,
                .obj [("message", JVal.str "b")]])]))).1.counter = 2 :=
  ⟨rfl, rfl, rfl⟩

/-- C2 amended: entries of a batch are processed strictly left to
right, with no per-entry error handling.  When every entry is
non-`null` and its console mirroring cannot throw (its `level` is a
string when truthy, and its `error.stack` is a string when both are
truthy), the batch succeeds: one record appended per entry with
consecutive sequence numbers and `processed = K`.  A failing entry
aborts the map, so the entries after it are not processed and the
request fails with 400, while the entries before it remain appended:
a `null` entry consumes a counter increment without storing anything
(the `data.level` read throws before the entry is built), whereas a
non-`null` entry whose console mirroring throws (truthy non-string
`level`, or truthy non-string `error.stack`) is itself appended before
the throw. -/
theorem C2_amended_batch_independence (now : Int) (st : ServerState)
    (es es₁ es₂ : List JVal) (eb : JVal)
    (hok : ∀ e ∈ es, e ≠ JVal.null ∧ consoleThrows e = false
        ∧ getField (spreadFields e) "_seq" = none)
    (hpre : ∀ e ∈ es₁, e ≠ JVal.null ∧ consoleThrows e = false
        ∧ getField (spreadFields e) "_seq" = none) :
    (∃ news : List LogRec,
        ingestBatch now st (some (.obj [("entries", .arr es)]))
          = (⟨st.counter + es.length, st.store ++ news.map some⟩,
             ⟨200, some es.length⟩)
        ∧ news.map (fun e => getField e "_seq")
            = (List.range es.length).map
                (fun i => some (JVal.num (Int.ofNat (st.counter + 1 + i)))))
    ∧ (∃ news : List LogRec,
        ingestBatch now st
            (some (.obj [("entries", .arr (es₁ ++ JVal.null :: es₂))]))
          = (⟨st.counter + es₁.length + 1, st.store ++ news.map some⟩,
             ⟨400, none⟩)
        ∧ news.length = es₁.length)
    ∧ (eb ≠ JVal.null → consoleThrows eb = true →
        ∃ news : List LogRec,
          ingestBatch now st
              (some (.obj [("entries", .arr (es₁ ++ eb :: es₂))]))
            = (⟨st.counter + es₁.length + 1, st.store ++ news.map some⟩,
               ⟨400, none⟩)
          ∧ news.length = es₁.length + 1) := by
  refine ⟨?_, ?_, ?_⟩
  · obtain ⟨news, he, hs⟩ := processEntries_ok now st es hok
    refine ⟨news, ?_, hs⟩
    have hun : ingestBatch now st (some (.obj [("entries", .arr es)]))
        = (match processEntries now st es with
           | (st', some n) => (st', ⟨200, some n⟩)
           | (st', none) => (st', ⟨400, none⟩)) := rfl
    rw [hun, he]
  · obtain ⟨news, he, hl⟩ := processEntries_abort_null now st es₁ es₂ hpre
    refine ⟨news, ?_, hl⟩
    have hun : ingestBatch now st
        (some (.obj [("entries", .arr (es₁ ++ JVal.null :: es₂))]))
        = (match processEntries now st (es₁ ++ JVal.null :: es₂) with
           | (st', some n) => (st', ⟨200, some n⟩)
           | (st', none) => (st', ⟨400, none⟩)) := rfl
    rw [hun, he]
  · intro hb0 hbt
    obtain ⟨news, he, hl⟩ :=
      processEntries_abort_console now st es₁ es₂ eb hpre hb0 hbt
    refine ⟨news, ?_, hl⟩
    have hun : ingestBatch now st
        (some (.obj [("entries", .arr (es₁ ++ eb :: es₂))]))
        = (match processEntries now st (es₁ ++ eb :: es₂) with
           | (st', some n) => (st', ⟨200, some n⟩)
           | (st', none) => (st', ⟨400, none⟩)) := rfl
    rw [hun, he]

/-- Witness for C2 (amended): a two-entry all-clean batch succeeds with
`processed = 2`; a batch `[{}, null]` fails with 400; and a batch
`[{}, {"level": 5}]` fails with 400 while storing two records — the
entry with the truthy non-string `level` is appended before its
`toUpperCase` throw. -/
theorem C2_amended_witness :
    (ingestBatch 0 initState
        (some (.obj [("entries", .arr [.obj [], .obj []])]))).2
      = ⟨200, some 2⟩
    ∧ (ingestBatch 0 initState
        (some (.obj [("entries", .arr [.obj [], JVal.null])]))).2.status
      = 400
    ∧ (ingestBatch 0 initState
        (some (.obj [("entries",
          .arr [.obj [], .obj [("level", JVal.num 5)]])]))).2.status = 400
    ∧ (ingestBatch 0 initState
        (some (.obj [("entries",
          .arr [.obj [], .obj [("level", JVal.num 5)]])]))).1.store.length
      = 2 := by
  have h := C2_amended_batch_independence 0 initState
    [.obj [], .obj []] [.obj []] [] (.obj [("level", JVal.num 5)])
    (by
      intro e he
      rcases List.mem_cons.mp he with h1 | h1
      · subst h1; exact ⟨by simp, rfl, rfl⟩
      · rcases List.mem_cons.mp h1 with h2 | h2
        · subst h2; exact ⟨by simp, rfl, rfl⟩
        · cases h2)
    (by
      intro e he
      rcases List.mem_cons.mp he with h1 | h1
      · subst h1; exact ⟨by simp, rfl, rfl⟩
      · cases h1)
  obtain ⟨⟨n1, h1, _⟩, ⟨n2, h2, _⟩, hc⟩ := h
  obtain ⟨n3, h3, hlen3⟩ := hc (by simp) rfl
  rw [List.singleton_append] at h2 h3
  refine ⟨?_, ?_, ?_, ?_⟩
  · rw [h1]
    rfl
  · rw [h2]
  · rw [h3]
  · rw [h3]
    simp [initState, hlen3]

-- ---------------------------------------------------------------------
-- C5: the stats time range
-- ---------------------------------------------------------------------

/-- Spec-side running minimum, mirroring the loop's accumulator. -/
def foldMin (o : Option Int) (xs : List Int) : Option Int :=
  xs.foldl (fun acc n =>
    match acc with
    | none => some n
    | some m => some (min m n)) o

/-- Spec-side running maximum, mirroring the loop's accumulator. -/
def foldMax (o : Option Int) (xs : List Int) : Option Int :=
  xs.foldl (fun acc n =>
    match acc with
    | none => some n
    | some m => some (max m n)) o

lemma foldMin_some (m : Int) (xs : List Int) :
    foldMin (some m) xs = some (xs.foldl min m) := by
  induction xs generalizing m with
  | nil => rfl
  | cons x xs ih =>
      show foldMin (some (min m x)) xs = some (xs.foldl min (min m x))
      exact ih (min m x)

lemma foldMax_some (m : Int) (xs : List Int) :
    foldMax (some m) xs = some (xs.foldl max m) := by
  induction xs generalizing m with
  | nil => rfl
  | cons x xs ih =>
      show foldMax (some (max m x)) xs = some (xs.foldl max (max m x))
      exact ih (max m x)

lemma foldMin_min? (xs : List Int) : foldMin none xs = xs.min? := by
  cases xs with
  | nil => rfl
  | cons x xs =>
      show foldMin (some x) xs = _
      rw [foldMin_some]
      rfl

lemma foldMax_max? (xs : List Int) : foldMax none xs = xs.max? := by
  cases xs with
  | nil => rfl
  | cons x xs =>
      show foldMax (some x) xs = _
      rw [foldMax_some]
      rfl

/-- Every timestamp admitted by the code's truthiness test is nonzero. -/
lemma truthyTimestamps_nonzero (es : List LogRec) :
    ∀ n ∈ truthyTimestamps es, n ≠ 0 := by
  intro n hn
  rw [truthyTimestamps, List.mem_filterMap] at hn
  obtain ⟨e, _, he⟩ := hn
  cases hts : getField e "timestamp" with
  | none => rw [hts] at he; cases he
  | some v =>
      rw [hts] at he
      cases v with
      | num m =>
          have he' : (if m ≠ 0 then some m else none) = some n := he
          by_cases hm : m ≠ 0
          · rw [if_pos hm] at he'
            cases he'
            exact hm
          · rw [if_neg hm] at he'
            cases he'
      | null => exact Option.noConfusion he
      | bool b => exact Option.noConfusion he
      | str s => exact Option.noConfusion he
      | arr xs => exact Option.noConfusion he
      | obj fs => exact Option.noConfusion he

/-- Update of the `earliest` accumulator by a truthy numeric timestamp:
it computes the running minimum. -/
lemma updMin_eq (m n : Int) (hm0 : m ≠ 0) :
    (if truthy (JVal.num m) = false ∨ jsLt (JVal.num n) (JVal.num m) = true
      then some (JVal.num n) else some (JVal.num m))
      = some (JVal.num (min m n)) := by
  have ht : truthy (JVal.num m) = true := by simpa [truthy] using hm0
  by_cases h : n < m
  · rw [if_pos (Or.inr (by simpa [jsLt] using h)), min_eq_right (le_of_lt h)]
  · have hc : ¬ (truthy (JVal.num m) = false
        ∨ jsLt (JVal.num n) (JVal.num m) = true) := by
      rintro (hc | hc)
      · rw [ht] at hc; cases hc
      · rw [show jsLt (JVal.num n) (JVal.num m) = false
            by simpa [jsLt] using h] at hc
        cases hc
    rw [if_neg hc, min_eq_left (not_lt.mp h)]

/-- Update of the `latest` accumulator by a truthy numeric timestamp:
it computes the running maximum. -/
lemma updMax_eq (m n : Int) (hm0 : m ≠ 0) :
    (if truthy (JVal.num m) = false ∨ jsGt (JVal.num n) (JVal.num m) = true
      then some (JVal.num n) else some (JVal.num m))
      = some (JVal.num (max m n)) := by
  have ht : truthy (JVal.num m) = true := by simpa [truthy] using hm0
  by_cases h : m < n
  · rw [if_pos (Or.inr (by simpa [jsGt] using h)), max_eq_right (le_of_lt h)]
  · have hc : ¬ (truthy (JVal.num m) = false
        ∨ jsGt (JVal.num n) (JVal.num m) = true) := by
      rintro (hc | hc)
      · rw [ht] at hc; cases hc
      · rw [show jsGt (JVal.num n) (JVal.num m) = false
            by simpa [jsGt] using h] at hc
        cases hc
    rw [if_neg hc, max_eq_left (not_lt.mp h)]

/-- One step of the stats loop on a record with a truthy numeric
timestamp: both accumulators take the running min / max. -/
lemma timeRangeStep_truthy (o1 o2 : Option Int) (e : LogRec) (n : Int)
    (hts : getField e "timestamp" = some (JVal.num n)) (hn : n ≠ 0)
    (h1 : ∀ m, o1 = some m → m ≠ 0) (h2 : ∀ m, o2 = some m → m ≠ 0) :
    timeRangeStep (o1.map JVal.num, o2.map JVal.num) e
      = ((match o1 with
          | none => some n
          | some m => some (min m n)).map JVal.num,
         (match o2 with
          | none => some n
          | some m => some (max m n)).map JVal.num) := by
  have htv : truthy (JVal.num n) = true := by simpa [truthy] using hn
  cases o1 with
  | none =>
      cases o2 with
      | none => simp [timeRangeStep, hts, htv]
      | some M =>
          simp [timeRangeStep, hts, htv]
          exact updMax_eq M n (h2 M rfl)
  | some m =>
      cases o2 with
      | none =>
          simp [timeRangeStep, hts, htv]
          exact updMin_eq m n (h1 m rfl)
      | some M =>
          simp [timeRangeStep, hts, htv]
          exact ⟨updMin_eq m n (h1 m rfl), updMax_eq M n (h2 M rfl)⟩

/-- One step of the stats loop on a record without a truthy timestamp:
the accumulators are unchanged. -/
lemma timeRangeStep_skip (acc : Option JVal × Option JVal) (e : LogRec)
    (h : ∀ v, getField e "timestamp" = some v → truthy v = false) :
    timeRangeStep acc e = acc := by
  cases hts : getField e "timestamp" with
  | none => simp [timeRangeStep, hts]
  | some v => simp [timeRangeStep, hts, h v hts]

/-- Core fold lemma for the stats time range: provided every truthy
timestamp in the store is numeric, the loop's `(earliest, latest)`
accumulator computes the running minimum and maximum of the truthy
(nonzero) timestamps. -/
lemma timeRange_fold (es : List LogRec)
    (h : ∀ e ∈ es, ∀ v, getField e "timestamp" = some v → truthy v
        → ∃ n, v = JVal.num n)
    (om oM : Option Int)
    (hm : ∀ m, om = some m → m ≠ 0) (hM : ∀ m, oM = some m → m ≠ 0) :
    es.foldl timeRangeStep (om.map JVal.num, oM.map JVal.num)
      = ((foldMin om (truthyTimestamps es)).map JVal.num,
         (foldMax oM (truthyTimestamps es)).map JVal.num) := by
  induction es generalizing om oM with
  | nil => rfl
  | cons e es ih =>
      have hhead := h e (List.mem_cons_self e es)
      have htail : ∀ e ∈ es, ∀ v, getField e "timestamp" = some v → truthy v
          → ∃ n, v = JVal.num n :=
        fun x hx => h x (List.mem_cons_of_mem e hx)
      rw [List.foldl_cons]
      cases hts : getField e "timestamp" with
      | none =>
          have hstep := timeRangeStep_skip (om.map JVal.num, oM.map JVal.num) e
            (fun v hv => by rw [hts] at hv; cases hv)
          have htts : truthyTimestamps (e :: es) = truthyTimestamps es := by
            simp [truthyTimestamps, List.filterMap_cons, hts]
          rw [hstep, htts]
          exact ih htail om oM hm hM
      | some v =>
          by_cases htv : truthy v = true
          · obtain ⟨n, rfl⟩ := hhead v hts htv
            have hn : n ≠ 0 := by simpa [truthy] using htv
            have htts : truthyTimestamps (e :: es)
                = n :: truthyTimestamps es := by
              simp [truthyTimestamps, List.filterMap_cons, hts, hn]
            have hstep := timeRangeStep_truthy om oM e n hts hn hm hM
            rw [hstep, htts]
            have hm' : ∀ m', (match om with
                | none => some n
                | some m => some (min m n)) = some m' → m' ≠ 0 := by
              cases om with
              | none => intro m' hm'; cases hm'; exact hn
              | some m =>
                  intro m' hm'
                  cases hm'
                  rcases min_choice m n with hc | hc <;> rw [hc]
                  · exact hm m rfl
                  · exact hn
            have hM' : ∀ m', (match oM with
                | none => some n
                | some m => some (max m n)) = some m' → m' ≠ 0 := by
              cases oM with
              | none => intro m' hm'; cases hm'; exact hn
              | some m =>
                  intro m' hm'
                  cases hm'
                  rcases max_choice m n with hc | hc <;> rw [hc]
                  · exact hM m rfl
                  · exact hn
            have hrec := ih htail _ _ hm' hM'
            rw [hrec]
            show _ = ((foldMin om (n :: truthyTimestamps es)).map JVal.num,
                (foldMax oM (n :: truthyTimestamps es)).map JVal.num)
            cases om <;> cases oM <;> rfl
          · have hstep := timeRangeStep_skip (om.map JVal.num, oM.map JVal.num) e
              (fun v' hv' => by
                rw [hts] at hv'
                cases hv'
                exact Bool.not_eq_true _ ▸ eq_false_of_ne_true htv)
            have htts : truthyTimestamps (e :: es) = truthyTimestamps es := by
              cases v with
              | num m =>
                  have hz : m = 0 := by
                    by_contra hmz
                    exact htv (by simpa [truthy] using hmz)
                  simp [truthyTimestamps, List.filterMap_cons, hts, hz]
              | null => simp [truthyTimestamps, List.filterMap_cons, hts]
              | bool b => simp [truthyTimestamps, List.filterMap_cons, hts]
              | str s => simp [truthyTimestamps, List.filterMap_cons, hts]
              | arr xs => exact absurd rfl htv
              | obj fs => exact absurd rfl htv
            rw [hstep, htts]
            exact ih htail om oM hm hM

/-- C5 counterexample: the claim says the stats time range reports the
minimum over all stored records that have a `timestamp`.  A record with
`timestamp: 0` has one, but `if (e.timestamp)` skips it (0 is falsy), so
with timestamps `[0, 100]` the code reports earliest `100` while the
minimum over records with a timestamp is `0`. -/
theorem C5_counterexample :
    (timeRange [[("timestamp", JVal.num 0)], [("timestamp", JVal.num 100)]]).1
      = some (JVal.num 100)
    ∧ (presentTimestamps
        [[("timestamp", JVal.num 0)], [("timestamp", JVal.num 100)]]).min?
      = some 0
    ∧ (100 : Int) ≠ 0 :=
  ⟨rfl, rfl, by decide⟩

/-- C5 amended: for stores whose present truthy timestamps are numeric,
the reported time range is the minimum and maximum over the records
whose `timestamp` is truthy (present and nonzero) — records with
`timestamp` 0 are excluded — and whenever both bounds exist the reported
duration is latest minus earliest. -/
theorem C5_amended_time_range (es : List LogRec)
    (h : ∀ e ∈ es, ∀ v, getField e "timestamp" = some v → truthy v
        → ∃ n, v = JVal.num n) :
    timeRange es
      = (((truthyTimestamps es).min?).map JVal.num,
         ((truthyTimestamps es).max?).map JVal.num)
    ∧ durationMs es
        = (truthyTimestamps es).min?.bind
            (fun a => (truthyTimestamps es).max?.map (fun b => b - a)) := by
  have h1 := timeRange_fold es h none none
    (fun m hm => Option.noConfusion hm) (fun m hm => Option.noConfusion hm)
  have htr : timeRange es
      = (((truthyTimestamps es).min?).map JVal.num,
         ((truthyTimestamps es).max?).map JVal.num) := by
    rw [timeRange,
      show ((none : Option JVal), (none : Option JVal))
        = ((none : Option Int).map JVal.num, (none : Option Int).map JVal.num)
        from rfl,
      h1, foldMin_min?, foldMax_max?]
  refine ⟨htr, ?_⟩
  unfold durationMs
  rw [htr]
  cases hl : truthyTimestamps es with
  | nil => rfl
  | cons x xs =>
      have hmin : (x :: xs).min? = some (xs.foldl min x) := rfl
      have hmax : (x :: xs).max? = some (xs.foldl max x) := rfl
      rw [hmin, hmax]
      have ha : xs.foldl min x ∈ x :: xs := List.min?_mem min_choice hmin
      have hb : xs.foldl max x ∈ x :: xs := List.max?_mem max_choice hmax
      have ha0 : xs.foldl min x ≠ 0 :=
        truthyTimestamps_nonzero es _ (by rw [hl]; exact ha)
      have hb0 : xs.foldl max x ≠ 0 :=
        truthyTimestamps_nonzero es _ (by rw [hl]; exact hb)
      show (if (truthy (JVal.num (xs.foldl min x))
                && truthy (JVal.num (xs.foldl max x))) = true
            then some (jsSubNum (JVal.num (xs.foldl max x))
                (JVal.num (xs.foldl min x)))
            else none)
        = some (xs.foldl max x - xs.foldl min x)
      rw [show truthy (JVal.num (xs.foldl min x)) = true
            by simpa [truthy] using ha0,
          show truthy (JVal.num (xs.foldl max x)) = true
            by simpa [truthy] using hb0]
      rfl

/-- Witness for C5 (amended) on timestamps `[100, 40]`: the range is
`(40, 100)` and the duration is `60`. -/
theorem C5_amended_witness :
    timeRange [[("timestamp", JVal.num 100)], [("timestamp", JVal.num 40)]]
      = (some (JVal.num 40), some (JVal.num 100))
    ∧ durationMs [[("timestamp", JVal.num 100)], [("timestamp", JVal.num 40)]]
      = some 60 := by
  have h := C5_amended_time_range
    [[("timestamp", JVal.num 100)], [("timestamp", JVal.num 40)]]
    (by
      intro e he v hv htv
      rcases List.mem_cons.mp he with h1 | h1
      · subst h1
        exact ⟨100, by cases hv; rfl⟩
      · rcases List.mem_cons.mp h1 with h2 | h2
        · subst h2
          exact ⟨40, by cases hv; rfl⟩
        · cases h2)
  refine ⟨?_, ?_⟩
  · rw [h.1]
    rfl
  · rw [h.2]
    rfl

-- ---------------------------------------------------------------------
-- C6: the timeline
-- ---------------------------------------------------------------------

/-- Strict key order on records, used to pin down the sorted order when
all keys are distinct. -/
def tsLt (a b : LogRec) : Prop :=
  tsKey a < tsKey b

instance : IsAntisymm LogRec tsLt :=
  ⟨fun _ _ h1 h2 => absurd h2 (not_lt.mpr (le_of_lt h1))⟩

/-- Spec-side elapsed value for one consecutive pair of the sorted
output: the timestamp difference when both are truthy, else zero. -/
def pairElapsed (p e : LogRec) : Int :=
  match getField p "timestamp", getField e "timestamp" with
  | some tp, some te => if truthy tp && truthy te then jsSubNum te tp else 0
  | _, _ => 0

/-- Spec-side elapsed list: zero for the first record, then one value
per consecutive pair of the sorted output. -/
def elapsedSpec : List LogRec → List Int
  | [] => []
  | e :: rest => 0 :: ((e :: rest).zip rest).map (fun q => pairElapsed q.1 q.2)

lemma timelineRows_elapsed_aux (p : LogRec) (s : List LogRec) :
    (timelineRows (some p) s).map (fun i => i.elapsed)
      = ((p :: s).zip s).map (fun q => pairElapsed q.1 q.2) := by
  induction s generalizing p with
  | nil => rfl
  | cons e s ih =>
      show pairElapsed p e :: (timelineRows (some e) s).map (fun i => i.elapsed)
        = pairElapsed p e :: ((e :: s).zip s).map (fun q => pairElapsed q.1 q.2)
      rw [ih e]

/-- The elapsed column of the timeline rows is the spec-side list. -/
lemma timelineRows_elapsed (s : List LogRec) :
    (timelineRows none s).map (fun i => i.elapsed) = elapsedSpec s := by
  cases s with
  | nil => rfl
  | cons e rest =>
      show (0 : Int) :: (timelineRows (some e) rest).map (fun i => i.elapsed)
        = elapsedSpec (e :: rest)
      rw [timelineRows_elapsed_aux e rest]
      rfl

/-- Concrete records used in the spec's timeline example. -/
def rec100 : LogRec := [("timestamp", JVal.num 100)]

/-- Concrete records used in the spec's timeline example. -/
def rec250 : LogRec := [("timestamp", JVal.num 250)]

/-- Concrete records used in the spec's timeline example. -/
def rec400 : LogRec := [("timestamp", JVal.num 400)]

/-- C6 counterexample: the claim says `elapsed` is the timestamp
difference, zero only for the first record or when a timestamp is
missing.  With timestamps `[0, 150]` both are present, so the claim
predicts elapsed `[0, 150]`, but the code's truthiness guard
(`arr[i-1].timestamp && e.timestamp`) treats the present timestamp `0`
as missing and yields `[0, 0]`. -/
theorem C6_counterexample :
    (timelineOf none
        [[("timestamp", JVal.num 0)], [("timestamp", JVal.num 150)]]).map
        (fun i => i.elapsed)
      = [0, 0]
    ∧ (150 : Int) - 0 ≠ 0 :=
  ⟨rfl, by decide⟩

/-- C6 amended: the timeline sorts the records ascending by
`timestamp || 0` (a stable sort; the output is a permutation of the
input, sorted by that key), and reports `elapsed` as zero for the first
record and, for each later record, the difference to its sorted
predecessor whenever both timestamps are truthy (present and nonzero)
and zero otherwise; in particular any ingestion order of three records
with timestamps `[100, 250, 400]` yields elapsed `[0, 150, 150]`. -/
theorem C6_amended_timeline (es l : List LogRec)
    (hperm : l.Perm [rec100, rec250, rec400]) :
    List.Sorted tsLeP (sortTs es)
    ∧ (sortTs es).Perm es
    ∧ (timelineOf none es).map (fun i => i.elapsed) = elapsedSpec (sortTs es)
    ∧ (timelineOf none l).map (fun i => i.elapsed) = [0, 150, 150] := by
  refine ⟨List.sorted_insertionSort tsLeP es, List.perm_insertionSort tsLeP es,
    timelineRows_elapsed (sortTs es), ?_⟩
  have hsorted : List.Sorted tsLeP (sortTs l) :=
    List.sorted_insertionSort tsLeP l
  have hpm : (sortTs l).Perm [rec100, rec250, rec400] :=
    (List.perm_insertionSort tsLeP l).trans hperm
  have hkeys : (([rec100, rec250, rec400] : List LogRec).map tsKey).Nodup := by
    show ([100, 250, 400] : List Int).Nodup
    decide
  have hkeys' : ((sortTs l).map tsKey).Nodup :=
    ((hpm.map tsKey).symm).nodup hkeys
  have hne : (sortTs l).Pairwise (fun a b => tsKey a ≠ tsKey b) :=
    List.pairwise_map.mp hkeys'
  have hlt : List.Sorted tsLt (sortTs l) :=
    (hsorted.and hne).imp (fun hab => lt_of_le_of_ne hab.1 hab.2)
  have hlt3 : List.Sorted tsLt [rec100, rec250, rec400] := by
    refine List.Pairwise.cons ?_ (List.Pairwise.cons ?_
      (List.Pairwise.cons ?_ List.Pairwise.nil))
    · intro b hb
      rcases List.mem_cons.mp hb with h1 | h1
      · subst h1; show tsKey rec100 < tsKey rec250; decide
      · rcases List.mem_cons.mp h1 with h2 | h2
        · subst h2; show tsKey rec100 < tsKey rec400; decide
        · cases h2
    · intro b hb
      rcases List.mem_cons.mp hb with h1 | h1
      · subst h1; show tsKey rec250 < tsKey rec400; decide
      · cases h1
    · intro b hb
      cases hb
  have heq : sortTs l = [rec100, rec250, rec400] :=
    List.eq_of_perm_of_sorted hpm hlt hlt3
  show (timelineRows none (sortTs l)).map (fun i => i.elapsed) = [0, 150, 150]
  rw [heq]
  rfl

/-- Witness for C6 (amended) at a concrete ingestion order
`[250, 100, 400]`. -/
theorem C6_amended_witness :
    (timelineOf none [rec250, rec100, rec400]).map (fun i => i.elapsed)
      = [0, 150, 150] :=
  (C6_amended_timeline [] [rec250, rec100, rec400]
    (List.Perm.swap rec100 rec250 [rec400])).2.2.2
